import Mathlib

/-!
Verification of the graphql-json-scalar-ts core: the structural validator
isJSONValue (src/types.ts), the converters serialize and parseValue, and the
literal decoder parseLiteral (src/JSONScalar.ts), shallowly embedded in Lean.

JavaScript runtime values are modelled by the inductive type JSValue: every
case the source code distinguishes (primitives, undefined, functions, symbols,
Date, RegExp, Error, arrays, objects) is a constructor. An object or array
carries the identity of its originating constructor (the bare generic
Object/Array base, absent, or a custom class), which is what the source
inspects via value.constructor. Dates carry their time value in milliseconds
since the epoch. Numbers are modelled exactly as rationals together with the
IEEE special values NaN and the two infinities.
-/

/-- Constructor identity of a JavaScript object or array: the bare generic
base (Object for plain objects, Array for plain arrays), no constructor at
all (for example an object with a null prototype), or a custom class. -/
inductive Ctor where
  | base
  | noCtor
  | custom (name : String)
deriving DecidableEq, Repr

/-- A JavaScript number: an exact finite value, NaN, or an infinity. The
finite case is idealised as a rational; no claim proved here depends on
binary floating-point rounding. -/
inductive JSNum where
  | finite (q : ℚ)
  | nan
  | posInf
  | negInf
deriving DecidableEq, Repr

/-- A JavaScript runtime value, covering every case the source code's
typeof / instanceof / Array.isArray / constructor tests distinguish. -/
inductive JSValue where
  | null
  | str (s : String)
  | num (n : JSNum)
  | boolean (b : Bool)
  | undefined
  | func (src : String)
  | symbol (desc : String)
  | date (ms : Int)
  | regexp (src : String)
  | errorObj (msg : String)
  | arr (ctor : Ctor) (elems : List JSValue)
  | obj (ctor : Ctor) (fields : List (String × JSValue))
deriving Repr

mutual

/-- Embedding of isJSONValue from src/types.ts. The source tests, in order:
value === null; typeof string/number/boolean; typeof undefined/function/
symbol; instanceof Date/RegExp/Error; Array.isArray (recursing with every);
then the plain-object branch, which rejects any value whose constructor is
neither Object nor undefined and otherwise recurses over Object.values. Each
constructor of JSValue lands in exactly the branch the source would take. -/
def isJSONValue : JSValue → Bool
  | .null => true
  | .str _ => true
  | .num _ => true
  | .boolean _ => true
  | .undefined => false
  | .func _ => false
  | .symbol _ => false
  | .date _ => false
  | .regexp _ => false
  | .errorObj _ => false
  | .arr _ elems => isJSONValueList elems
  | .obj ctor fields =>
      if ctor = Ctor.base ∨ ctor = Ctor.noCtor then isJSONValueFields fields
      else false

/-- Embedding of value.every(isJSONValue) over an array's elements. -/
def isJSONValueList : List JSValue → Bool
  | [] => true
  | e :: es => isJSONValue e && isJSONValueList es

/-- Embedding of Object.values(value).every(isJSONValue) over an object's
own enumerable properties. -/
def isJSONValueFields : List (String × JSValue) → Bool
  | [] => true
  | (_, v) :: fs => isJSONValue v && isJSONValueFields fs

end

/-- Zero-padded two-digit decimal rendering (for n below 100). -/
def pad2 (n : Nat) : String :=
  String.mk [Nat.digitChar (n / 10 % 10), Nat.digitChar (n % 10)]

/-- Zero-padded three-digit decimal rendering (for n below 1000). -/
def pad3 (n : Nat) : String :=
  String.mk [Nat.digitChar (n / 100 % 10), Nat.digitChar (n / 10 % 10), Nat.digitChar (n % 10)]

/-- Zero-padded four-digit decimal rendering (for n below 10000). -/
def pad4 (n : Nat) : String :=
  String.mk [Nat.digitChar (n / 1000 % 10), Nat.digitChar (n / 100 % 10),
    Nat.digitChar (n / 10 % 10), Nat.digitChar (n % 10)]

/-- Zero-padded six-digit decimal rendering (for the expanded-year form). -/
def pad6 (n : Nat) : String :=
  String.mk [Nat.digitChar (n / 100000 % 10), Nat.digitChar (n / 10000 % 10),
    Nat.digitChar (n / 1000 % 10), Nat.digitChar (n / 100 % 10),
    Nat.digitChar (n / 10 % 10), Nat.digitChar (n % 10)]

/-- Proleptic-Gregorian civil date from a count of days since 1970-01-01
(the standard era-based algorithm): year, month (1-12), day (1-31). -/
def civilFromDays (z0 : Int) : Int × Nat × Nat :=
  let z : Int := z0 + 719468
  let era : Int := Int.ediv z 146097
  let doe : Nat := (Int.emod z 146097).toNat
  let yoe : Nat := (doe - doe / 1460 + doe / 36524 - doe / 146096) / 365
  let y : Int := (yoe : Int) + era * 400
  let doy : Nat := doe - (365 * yoe + yoe / 4 - yoe / 100)
  let mp : Nat := (5 * doy + 2) / 153
  let d : Nat := doy - (153 * mp + 2) / 5 + 1
  let m : Nat := if mp < 10 then mp + 3 else mp - 9
  (if m ≤ 2 then y + 1 else y, m, d)

/-- The year component of a time value, as toISOString computes it. -/
def dateYear (ms : Int) : Int :=
  (civilFromDays (Int.ediv ms 86400000)).1

/-- Year rendering of toISOString: four zero-padded digits for years 0-9999,
otherwise the expanded form, a sign followed by six zero-padded digits. -/
def yearString (y : Int) : String :=
  if 0 ≤ y ∧ y ≤ 9999 then pad4 y.toNat
  else (if y < 0 then "-" else "+") ++ pad6 y.natAbs

/-- Model of Date.prototype.toISOString for a date holding the time value ms
(milliseconds since the epoch): the ISO-8601 extended UTC timestamp
YYYY-MM-DDTHH:mm:ss.sssZ, with the expanded year form outside 0-9999. -/
def toISOString (ms : Int) : String :=
  let days : Int := Int.ediv ms 86400000
  let timeMs : Nat := (Int.emod ms 86400000).toNat
  let ymd := civilFromDays days
  yearString ymd.1 ++ "-" ++ pad2 ymd.2.1 ++ "-" ++ pad2 ymd.2.2 ++ "T" ++
    pad2 (timeMs / 3600000) ++ ":" ++ pad2 (timeMs / 60000 % 60) ++ ":" ++
    pad2 (timeMs / 1000 % 60) ++ "." ++ pad3 (timeMs % 1000) ++ "Z"

/-- Rendering of a JavaScript number by String(). The finite case is a
simplified exact rendering; no property proved here depends on its shape. -/
def jsNumToString : JSNum → String
  | .finite q => if q.den = 1 then toString q.num else toString q.num ++ "/" ++ toString q.den
  | .nan => "NaN"
  | .posInf => "Infinity"
  | .negInf => "-Infinity"

mutual

/-- Model of the host String() conversion used in the error messages of the
source (String(value)). The exact rendering of each case is immaterial to
every property proved below; only that some rendering of the rejected value
is embedded in the message. Arrays render as their comma-joined elements,
with null and undefined elements rendering empty, as Array.prototype.join
does; plain objects render as the generic object tag. -/
def jsToString : JSValue → String
  | .null => "null"
  | .str s => s
  | .num n => jsNumToString n
  | .boolean b => if b then "true" else "false"
  | .undefined => "undefined"
  | .func src => src
  | .symbol desc => "Symbol(" ++ desc ++ ")"
  | .date ms => toISOString ms
  | .regexp src => "/" ++ src ++ "/"
  | .errorObj m => "Error: " ++ m
  | .arr _ elems => jsToStringList elems
  | .obj _ _ => "[object Object]"

/-- Comma-joining of array elements for jsToString, following
Array.prototype.join: null and undefined become the empty string. -/
def jsToStringList : List JSValue → String
  | [] => ""
  | e :: es =>
      let head : String :=
        match e with
        | .null => ""
        | .undefined => ""
        | _ => jsToString e
      match es with
      | [] => head
      | _ :: _ => head ++ "," ++ jsToStringList es

end

/-- The single error kind of the component: a thrown TypeError carrying its
message. -/
inductive JSError where
  | typeError (msg : String)
deriving DecidableEq, Repr

/-- The error message built by serialize and parseValue for a rejected value
(two concatenated string literals in the source, with the String(value)
rendering interpolated into the first). -/
def cannotRepresent (value : JSValue) : JSError :=
  .typeError ("JSON cannot represent value: " ++ jsToString value ++ "." ++
    "Only plain objects, arrays, and primitives are supported.")

/-- Embedding of the instanceof Date test performed by both converters. -/
def isDateValue : JSValue → Bool
  | .date _ => true
  | _ => false

/-- Embedding of serialize from src/JSONScalar.ts: a Date is converted to its
ISO string and returned at once; any other value is returned unchanged when
isJSONValue accepts it and otherwise causes a thrown TypeError, modelled by
the error case of Except. -/
def serialize (value : JSValue) : Except JSError JSValue :=
  match value with
  | .date ms => .ok (.str (toISOString ms))
  | v =>
      if isJSONValue v then .ok v
      else .error (cannotRepresent v)

/-- Embedding of parseValue from src/JSONScalar.ts; its body is the same as
that of serialize, line for line. -/
def parseValue (value : JSValue) : Except JSError JSValue :=
  match value with
  | .date ms => .ok (.str (toISOString ms))
  | v =>
      if isJSONValue v then .ok v
      else .error (cannotRepresent v)

/-- Value of a list of decimal digit characters, most significant first. -/
def digitsToNat (ds : List Char) : Nat :=
  ds.foldl (fun acc c => 10 * acc + (c.toNat - 48)) 0

/-- Model of the host parseInt(s, 10): skip leading whitespace, read an
optional sign, then the longest run of decimal digits; NaN when that run is
empty, otherwise the signed value of the run. -/
def jsParseInt (s : String) : JSNum :=
  let cs := s.toList.dropWhile (fun c => c.isWhitespace)
  let signed : Bool × List Char :=
    match cs with
    | '-' :: rest => (true, rest)
    | '+' :: rest => (false, rest)
    | _ => (false, cs)
  let ds := signed.2.takeWhile (fun c => c.isDigit)
  if ds.isEmpty then JSNum.nan
  else JSNum.finite (if signed.1 then -(digitsToNat ds : ℚ) else (digitsToNat ds : ℚ))

/-- Model of the host parseFloat(s): skip leading whitespace, read an
optional sign, then either the Infinity literal or the longest decimal
literal (integer digits, optional fraction, optional exponent); NaN when no
digit is found. The finite value is exact, not rounded to binary64. -/
def jsParseFloat (s : String) : JSNum :=
  let cs := s.toList.dropWhile (fun c => c.isWhitespace)
  let signed : Bool × List Char :=
    match cs with
    | '-' :: rest => (true, rest)
    | '+' :: rest => (false, rest)
    | _ => (false, cs)
  let neg := signed.1
  let cs2 := signed.2
  if cs2.take 8 = "Infinity".toList then
    if neg then JSNum.negInf else JSNum.posInf
  else
    let intDs := cs2.takeWhile (fun c => c.isDigit)
    let rest1 := cs2.dropWhile (fun c => c.isDigit)
    let fracSplit : List Char × List Char :=
      match rest1 with
      | '.' :: r => (r.takeWhile (fun c => c.isDigit), r.dropWhile (fun c => c.isDigit))
      | _ => ([], rest1)
    let fracDs := fracSplit.1
    if intDs.isEmpty ∧ fracDs.isEmpty then JSNum.nan
    else
      let mantissa : ℚ :=
        (digitsToNat intDs : ℚ) + (digitsToNat fracDs : ℚ) / (10 : ℚ) ^ fracDs.length
      let expVal : Int :=
        match fracSplit.2 with
        | c :: r =>
          if c = 'e' ∨ c = 'E' then
            let esigned : Bool × List Char :=
              match r with
              | '-' :: rr => (true, rr)
              | '+' :: rr => (false, rr)
              | _ => (false, r)
            let eds := esigned.2.takeWhile (fun c => c.isDigit)
            if eds.isEmpty then 0
            else if esigned.1 then -(digitsToNat eds : Int) else (digitsToNat eds : Int)
          else 0
        | [] => 0
      let magnitude : ℚ := mantissa * (10 : ℚ) ^ expVal
      JSNum.finite (if neg then -magnitude else magnitude)

/-- The literal-AST of the query language (the graphql ValueNode union),
covering the seven kinds the decoder supports plus the two it does not:
enum literals and variable references. An object field is its name string
paired with its value node. -/
inductive ValueNode where
  | stringValue (value : String)
  | intValue (value : String)
  | floatValue (value : String)
  | booleanValue (value : Bool)
  | nullValue
  | listValue (values : List ValueNode)
  | objectValue (fields : List (String × ValueNode))
  | enumValue (value : String)
  | variableNode (name : String)
deriving Repr

/-- The kind string of a node (the graphql Kind constant carried by the
node), as interpolated into the decoder's error message. -/
def ValueNode.kindName : ValueNode → String
  | .stringValue _ => "StringValue"
  | .intValue _ => "IntValue"
  | .floatValue _ => "FloatValue"
  | .booleanValue _ => "BooleanValue"
  | .nullValue => "NullValue"
  | .listValue _ => "ListValue"
  | .objectValue _ => "ObjectValue"
  | .enumValue _ => "EnumValue"
  | .variableNode _ => "Variable"

/-- Property assignment on a JavaScript object (obj[key] = v): overwrite in
place when the key is already present, otherwise append the new property at
the end, preserving insertion order. -/
def objAssign (fields : List (String × JSValue)) (key : String) (v : JSValue) :
    List (String × JSValue) :=
  match fields with
  | [] => [(key, v)]
  | (k, w) :: rest =>
      if k = key then (k, v) :: rest else (k, w) :: objAssign rest key v

/-- First-match property lookup on a JavaScript object. -/
def objLookup (fields : List (String × JSValue)) (key : String) : Option JSValue :=
  match fields with
  | [] => none
  | (k, w) :: rest => if k = key then some w else objLookup rest key

/-- Lookup in a list of name-value pairs under the discipline that a later
pair with the same name shadows an earlier one (the value the spec assigns
to a duplicated object-literal field name). -/
def lookupLastPair : List (String × JSValue) → String → Option JSValue
  | [], _ => none
  | (k0, w) :: rest, k =>
      match lookupLastPair rest k with
      | some w2 => some w2
      | none => if k0 = k then some w else none

mutual

/-- Embedding of parseLiteral from src/JSONScalar.ts: a switch on ast.kind.
String and boolean literals pass their payload through; int and float
literals go through the host parse routines; null maps to null; a list maps
each element recursively in order; an object starts from an empty plain
object and assigns each field's decoded value under the field's name in
field order; any other kind is a thrown TypeError naming the kind. A thrown
error from a nested node propagates, modelled by the Except monad. -/
def parseLiteral : ValueNode → Except JSError JSValue
  | .stringValue s => .ok (.str s)
  | .intValue s => .ok (.num (jsParseInt s))
  | .floatValue s => .ok (.num (jsParseFloat s))
  | .booleanValue b => .ok (.boolean b)
  | .nullValue => .ok .null
  | .listValue vs => do
      let ws ← parseLiteralList vs
      return .arr .base ws
  | .objectValue flds => do
      let fields ← parseLiteralFields flds []
      return .obj .base fields
  | other =>
      .error (.typeError ("JSON cannot represent value: " ++ other.kindName ++ "." ++
        "Only StringValue, IntValue, FloatValue, BooleanValue, NullValue, ObjectValue, and ListValue are supported"))

/-- Embedding of ast.values.map(parseLiteral): decode each element in order,
propagating the first thrown error. -/
def parseLiteralList : List ValueNode → Except JSError (List JSValue)
  | [] => .ok []
  | v :: vs => do
      let w ← parseLiteral v
      let ws ← parseLiteralList vs
      return w :: ws

/-- Embedding of the decoder's object loop: for each field in order, decode
its value and assign it under the field's name in the accumulator object. -/
def parseLiteralFields :
    List (String × ValueNode) → List (String × JSValue) → Except JSError (List (String × JSValue))
  | [], acc => .ok acc
  | (name, vn) :: rest, acc => do
      let w ← parseLiteral vn
      parseLiteralFields rest (objAssign acc name w)

end

mutual

/-- Whether every node of a literal-AST carries one of the seven supported
kinds (no enum literal and no variable reference anywhere). -/
def allSupported : ValueNode → Bool
  | .stringValue _ => true
  | .intValue _ => true
  | .floatValue _ => true
  | .booleanValue _ => true
  | .nullValue => true
  | .listValue vs => allSupportedList vs
  | .objectValue flds => allSupportedFields flds
  | .enumValue _ => false
  | .variableNode _ => false

/-- allSupported over the elements of a list literal. -/
def allSupportedList : List ValueNode → Bool
  | [] => true
  | v :: vs => allSupported v && allSupportedList vs

/-- allSupported over the field values of an object literal. -/
def allSupportedFields : List (String × ValueNode) → Bool
  | [] => true
  | (_, v) :: fs => allSupported v && allSupportedFields fs

end

/-- Evaluation of f at every element of a list, kept only when every
evaluation produces a value (the Option analogue of mapping then
sequencing). -/
def collectOptions {α β : Type} (f : α → Option β) : List α → Option (List β)
  | [] => some []
  | x :: xs => do
      let y ← f x
      let ys ← collectOptions f xs
      return y :: ys

/-- The validator re-expressed with an explicit bound on recursion depth,
modelling its execution on a finite call stack: none when the depth bound is
exhausted, some of the computed boolean otherwise. Matching isJSONValue, one
level of depth is consumed per recursive call into an element or property
value; the iteration over a container's children consumes none. -/
def isJSONValueFuel : Nat → JSValue → Option Bool
  | 0, _ => none
  | fuel + 1, v =>
    match v with
    | .null => some true
    | .str _ => some true
    | .num _ => some true
    | .boolean _ => some true
    | .undefined => some false
    | .func _ => some false
    | .symbol _ => some false
    | .date _ => some false
    | .regexp _ => some false
    | .errorObj _ => some false
    | .arr _ elems =>
        (collectOptions (fun e => isJSONValueFuel fuel e) elems).map
          (fun bs => bs.all (fun b => b))
    | .obj ctor fields =>
        if ctor = Ctor.base ∨ ctor = Ctor.noCtor then
          (collectOptions (fun w => isJSONValueFuel fuel w) (fields.map Prod.snd)).map
            (fun bs => bs.all (fun b => b))
        else some false

/-- Sequencing of a list of decode results, first error first, as the
decoder's recursion produces them. -/
def collectResults {α : Type} : List (Except JSError α) → Except JSError (List α)
  | [] => .ok []
  | r :: rs => do
      let w ← r
      let ws ← collectResults rs
      return w :: ws

/-- The decoder's object loop applied to already-decoded field results:
bind each result in order and assign it under its name. -/
def assignResults :
    List (String × Except JSError JSValue) → List (String × JSValue) →
      Except JSError (List (String × JSValue))
  | [], acc => .ok acc
  | (name, r) :: rest, acc => do
      let w ← r
      assignResults rest (objAssign acc name w)

/-- The decoder re-expressed with an explicit bound on recursion depth,
modelling its execution on a finite call stack: none when the depth bound is
exhausted, some of the decoder's outcome otherwise. -/
def parseLiteralFuel : Nat → ValueNode → Option (Except JSError JSValue)
  | 0, _ => none
  | fuel + 1, node =>
    match node with
    | .stringValue s => some (.ok (.str s))
    | .intValue s => some (.ok (.num (jsParseInt s)))
    | .floatValue s => some (.ok (.num (jsParseFloat s)))
    | .booleanValue b => some (.ok (.boolean b))
    | .nullValue => some (.ok .null)
    | .listValue vs =>
        (collectOptions (fun v => parseLiteralFuel fuel v) vs).map
          (fun rs => (collectResults rs).map (fun ws => .arr .base ws))
    | .objectValue flds =>
        (collectOptions (fun f => (parseLiteralFuel fuel f.2).map (fun r => (f.1, r))) flds).map
          (fun rs => (assignResults rs []).map (fun fields => .obj .base fields))
    | other =>
        some (.error (.typeError ("JSON cannot represent value: " ++ other.kindName ++ "." ++
          "Only StringValue, IntValue, FloatValue, BooleanValue, NullValue, ObjectValue, and ListValue are supported")))

/-!
Helper lemmas: re-expressions of the mutual recursions over lists, and the
behaviour of property assignment and lookup.
-/

/-- The element recursion of the validator is the conjunction over the
list. -/
theorem isJSONValueList_eq_all (es : List JSValue) :
    isJSONValueList es = es.all (fun e => isJSONValue e) := by
  induction es with
  | nil => rfl
  | cons e es ih => simp [isJSONValueList, ih]

/-- The property recursion of the validator is the conjunction over the
property values. -/
theorem isJSONValueFields_eq_all (fs : List (String × JSValue)) :
    isJSONValueFields fs = (fs.map Prod.snd).all (fun v => isJSONValue v) := by
  induction fs with
  | nil => rfl
  | cons f fs ih =>
      obtain ⟨k, v⟩ := f
      simp [isJSONValueFields, ih]

/-- Folding the identity over a mapped boolean list. -/
theorem all_map_id {α : Type} (f : α → Bool) (l : List α) :
    (l.map f).all (fun b => b) = l.all f := by
  induction l with
  | nil => rfl
  | cons x xs ih => simp_all

/-- collectOptions succeeds with the pointwise values when every evaluation
succeeds. -/
theorem collectOptions_of_forall {α β : Type} (f : α → Option β) (g : α → β) :
    ∀ l : List α, (∀ x ∈ l, f x = some (g x)) → collectOptions f l = some (l.map g) := by
  intro l h
  induction l with
  | nil => rfl
  | cons x xs ih =>
      have hx := h x (by simp)
      have hxs := ih (fun y hy => h y (by simp [hy]))
      simp [collectOptions, hx, hxs]

/-- Sequencing the decodes of a list of nodes is the decoder's own list
recursion. -/
theorem collectResults_map_parseLiteral (vs : List ValueNode) :
    collectResults (vs.map (fun v => parseLiteral v)) = parseLiteralList vs := by
  induction vs with
  | nil => rfl
  | cons v vs ih => simp [collectResults, parseLiteralList, ih]

/-- Assigning the decodes of a list of fields is the decoder's own field
recursion. -/
theorem assignResults_map_parseLiteral (flds : List (String × ValueNode)) :
    ∀ acc, assignResults (flds.map (fun f => (f.1, parseLiteral f.2))) acc =
      parseLiteralFields flds acc := by
  induction flds with
  | nil => intro acc; rfl
  | cons f flds ih =>
      intro acc
      obtain ⟨name, vn⟩ := f
      simp [assignResults, parseLiteralFields, ih]

/-- Lookup after assignment: the assigned key now maps to the new value and
every other key is unchanged. -/
theorem objLookup_objAssign (fs : List (String × JSValue)) (key k : String) (v : JSValue) :
    objLookup (objAssign fs key v) k = if k = key then some v else objLookup fs k := by
  induction fs with
  | nil =>
      by_cases h : k = key
      · simp [objAssign, objLookup, h]
      · simp [objAssign, objLookup, h, Ne.symm h]
  | cons f fs ih =>
      obtain ⟨k0, w0⟩ := f
      by_cases h0 : k0 = key
      · subst h0
        by_cases h : k = k0
        · simp [objAssign, objLookup, h]
        · simp [objAssign, objLookup, h, Ne.symm h]
      · by_cases hk : k = key
        · subst hk
          have hk0 : ¬ k0 = k := h0
          simp [objAssign, objLookup, h0, hk0, ih]
        · simp [objAssign, objLookup, h0, ih, hk]

/-- Lookup after assigning a whole list of pairs in order: the last pair
with the looked-up name wins, and the original object is consulted only when
the name never occurs. -/
theorem objLookup_foldl_assign (ds : List (String × JSValue)) :
    ∀ (acc : List (String × JSValue)) (k : String),
      objLookup (ds.foldl (fun a p => objAssign a p.1 p.2) acc) k =
        match lookupLastPair ds k with
        | some w => some w
        | none => objLookup acc k := by
  induction ds with
  | nil => intro acc k; simp [lookupLastPair]
  | cons d ds ih =>
      intro acc k
      obtain ⟨k0, w0⟩ := d
      simp only [List.foldl_cons, ih, lookupLastPair]
      cases hX : lookupLastPair ds k with
      | some w => simp
      | none =>
          by_cases hk : k = k0
          · simp [objLookup_objAssign, hk]
          · simp [objLookup_objAssign, hk, Ne.symm hk]

/-- Property assignment keeps an all-JSON object all-JSON when the assigned
value is itself JSON. -/
theorem objAssign_preserves (acc : List (String × JSValue)) (key : String) (w : JSValue)
    (hacc : isJSONValueFields acc = true) (hw : isJSONValue w = true) :
    isJSONValueFields (objAssign acc key w) = true := by
  induction acc with
  | nil => simp [objAssign, isJSONValueFields, hw]
  | cons f fs ih =>
      obtain ⟨k0, w0⟩ := f
      simp only [isJSONValueFields, Bool.and_eq_true] at hacc
      by_cases h : k0 = key
      · simp [objAssign, h, isJSONValueFields, hw, hacc.2]
      · simp [objAssign, h, isJSONValueFields, hacc.1, ih hacc.2]

/-- Every value the decoder returns lies inside the JSON-Value domain. -/
theorem parseLiteral_ok_isJSON :
    ∀ node : ValueNode, ∀ v, parseLiteral node = .ok v → isJSONValue v = true := by
  intro node
  refine parseLiteral.induct
    (fun node => ∀ v, parseLiteral node = .ok v → isJSONValue v = true)
    (fun flds acc => isJSONValueFields acc = true →
      ∀ r, parseLiteralFields flds acc = .ok r → isJSONValueFields r = true)
    (fun vs => ∀ ws, parseLiteralList vs = .ok ws → isJSONValueList ws = true)
    ?_ ?_ ?_ ?_ ?_ ?_ ?_ ?_ ?_ ?_ ?_ ?_ node
  · intro s v h
    simp only [parseLiteral, Except.ok.injEq] at h
    subst h; rfl
  · intro s v h
    simp only [parseLiteral, Except.ok.injEq] at h
    subst h; rfl
  · intro s v h
    simp only [parseLiteral, Except.ok.injEq] at h
    subst h; rfl
  · intro b v h
    simp only [parseLiteral, Except.ok.injEq] at h
    subst h; rfl
  · intro v h
    simp only [parseLiteral, Except.ok.injEq] at h
    subst h; rfl
  · intro vs ih v h
    simp only [parseLiteral] at h
    cases hws : parseLiteralList vs with
    | error e => rw [hws] at h; simp only [bind, Except.bind] at h; cases h
    | ok ws =>
        rw [hws] at h
        simp only [bind, Except.bind, Functor.map, Except.map, pure, Except.pure] at h
        cases h
        simp [isJSONValue, ih ws hws]
  · intro flds ih v h
    simp only [parseLiteral] at h
    cases hr : parseLiteralFields flds [] with
    | error e => rw [hr] at h; simp only [bind, Except.bind] at h; cases h
    | ok r =>
        rw [hr] at h
        simp only [bind, Except.bind, Functor.map, Except.map, pure, Except.pure] at h
        cases h
        have hfields := ih rfl r hr
        simp [isJSONValue, hfields]
  · intro other h1 h2 h3 h4 h5 h6 h7 v h
    cases other with
    | stringValue s => exact absurd rfl (h1 s)
    | intValue s => exact absurd rfl (h2 s)
    | floatValue s => exact absurd rfl (h3 s)
    | booleanValue b => exact absurd rfl (h4 b)
    | nullValue => exact absurd rfl h5
    | listValue vs => exact absurd rfl (h6 vs)
    | objectValue flds => exact absurd rfl (h7 flds)
    | enumValue s => simp [parseLiteral] at h
    | variableNode nm => simp [parseLiteral] at h
  · intro ws h
    simp only [parseLiteralList, Except.ok.injEq] at h
    subst h; rfl
  · intro v vs ihv ihvs ws h
    simp only [parseLiteralList] at h
    cases hw : parseLiteral v with
    | error e => rw [hw] at h; simp only [bind, Except.bind] at h; cases h
    | ok w =>
        rw [hw] at h
        cases hws : parseLiteralList vs with
        | error e => rw [hws] at h; simp only [bind, Except.bind] at h; cases h
        | ok ws2 =>
            rw [hws] at h
            simp only [bind, Except.bind, Functor.map, Except.map, pure, Except.pure] at h
            cases h
            simp [isJSONValueList, ihv w hw, ihvs ws2 hws]
  · intro acc hacc r h
    simp only [parseLiteralFields, Except.ok.injEq] at h
    subst h; exact hacc
  · intro name vn rest acc ihv ihrest hacc r h
    simp only [parseLiteralFields] at h
    cases hw : parseLiteral vn with
    | error e => rw [hw] at h; simp only [bind, Except.bind] at h; cases h
    | ok w =>
        rw [hw] at h
        simp only [bind, Except.bind, Functor.map, Except.map, pure, Except.pure] at h
        exact ihrest w (objAssign_preserves acc name w hacc (ihv w hw)) r h


/-- On a literal-AST whose every node carries a supported tag, the decoder
returns a value (it cannot throw). -/
theorem allSupported_parseLiteral_ok :
    ∀ node : ValueNode, allSupported node = true → ∃ v, parseLiteral node = .ok v := by
  intro node
  refine parseLiteral.induct
    (fun node => allSupported node = true → ∃ v, parseLiteral node = .ok v)
    (fun flds acc => allSupportedFields flds = true → ∃ r, parseLiteralFields flds acc = .ok r)
    (fun vs => allSupportedList vs = true → ∃ ws, parseLiteralList vs = .ok ws)
    ?_ ?_ ?_ ?_ ?_ ?_ ?_ ?_ ?_ ?_ ?_ ?_ node
  · intro s _
    exact ⟨.str s, rfl⟩
  · intro s _
    exact ⟨.num (jsParseInt s), rfl⟩
  · intro s _
    exact ⟨.num (jsParseFloat s), rfl⟩
  · intro b _
    exact ⟨.boolean b, rfl⟩
  · intro _
    exact ⟨.null, rfl⟩
  · intro vs ih hsupp
    simp only [allSupported] at hsupp
    obtain ⟨ws, hws⟩ := ih hsupp
    refine ⟨.arr .base ws, ?_⟩
    simp [parseLiteral, hws, bind, Except.bind, pure, Except.pure]
  · intro flds ih hsupp
    simp only [allSupported] at hsupp
    obtain ⟨r, hr⟩ := ih hsupp
    refine ⟨.obj .base r, ?_⟩
    simp [parseLiteral, hr, bind, Except.bind, pure, Except.pure]
  · intro other h1 h2 h3 h4 h5 h6 h7 hsupp
    cases other with
    | stringValue s => exact absurd rfl (h1 s)
    | intValue s => exact absurd rfl (h2 s)
    | floatValue s => exact absurd rfl (h3 s)
    | booleanValue b => exact absurd rfl (h4 b)
    | nullValue => exact absurd rfl h5
    | listValue vs => exact absurd rfl (h6 vs)
    | objectValue flds => exact absurd rfl (h7 flds)
    | enumValue s => simp [allSupported] at hsupp
    | variableNode nm => simp [allSupported] at hsupp
  · intro _
    exact ⟨[], rfl⟩
  · intro v vs ihv ihvs hsupp
    simp only [allSupportedList, Bool.and_eq_true] at hsupp
    obtain ⟨w, hw⟩ := ihv hsupp.1
    obtain ⟨ws, hws⟩ := ihvs hsupp.2
    refine ⟨w :: ws, ?_⟩
    simp [parseLiteralList, hw, hws, bind, Except.bind, Functor.map, Except.map, pure, Except.pure]
  · intro acc _
    exact ⟨acc, rfl⟩
  · intro name vn rest acc ihv ihrest hsupp
    simp only [allSupportedFields, Bool.and_eq_true] at hsupp
    obtain ⟨w, hw⟩ := ihv hsupp.1
    obtain ⟨r, hr⟩ := ihrest w hsupp.2
    refine ⟨r, ?_⟩
    simp only [parseLiteralFields, hw, bind, Except.bind]
    exact hr


/-- The recursion of the validator needs no more call-stack depth than the
size of its input: with that much fuel the bounded execution completes and
agrees with the total function. -/
theorem isJSONValueFuel_converges :
    ∀ (fuel : Nat) (v : JSValue), sizeOf v ≤ fuel →
      isJSONValueFuel fuel v = some (isJSONValue v) := by
  intro fuel
  induction fuel with
  | zero =>
      intro v h
      exfalso
      cases v <;> simp at h
  | succ fuel ih =>
      intro v h
      cases v with
      | null => rfl
      | str s => rfl
      | num n => rfl
      | boolean b => rfl
      | undefined => rfl
      | func s => rfl
      | symbol s => rfl
      | date ms => rfl
      | regexp s => rfl
      | errorObj s => rfl
      | arr c elems =>
          have hsz : 1 + sizeOf c + sizeOf elems ≤ fuel + 1 := by simp at h; omega
          have helems : ∀ e ∈ elems, isJSONValueFuel fuel e = some (isJSONValue e) := by
            intro e he
            have h1 := List.sizeOf_lt_of_mem he
            exact ih e (by omega)
          simp only [isJSONValueFuel]
          rw [collectOptions_of_forall _ (fun e => isJSONValue e) elems helems]
          simp only [Option.map]
          rw [all_map_id]
          simp [isJSONValue, isJSONValueList_eq_all]
      | obj c fields =>
          have hsz : 1 + sizeOf c + sizeOf fields ≤ fuel + 1 := by simp at h; omega
          by_cases hc : c = Ctor.base ∨ c = Ctor.noCtor
          · have hflds : ∀ w ∈ fields.map Prod.snd,
                isJSONValueFuel fuel w = some (isJSONValue w) := by
              intro w hw
              obtain ⟨p, hp, hpw⟩ := List.mem_map.mp hw
              have h1 := List.sizeOf_lt_of_mem hp
              have h2 : sizeOf p.2 < sizeOf p := by
                obtain ⟨a, b⟩ := p
                simp
              rw [← hpw]
              exact ih p.2 (by omega)
            simp only [isJSONValueFuel]
            rw [if_pos hc]
            rw [collectOptions_of_forall _ (fun w => isJSONValue w) _ hflds]
            simp only [Option.map]
            rw [all_map_id]
            simp [isJSONValue, hc, isJSONValueFields_eq_all]
          · simp [isJSONValueFuel, isJSONValue, hc]


/-- The recursion of the decoder needs no more call-stack depth than the
size of its input: with that much fuel the bounded execution completes and
agrees with the total function. -/
theorem parseLiteralFuel_converges :
    ∀ (fuel : Nat) (node : ValueNode), sizeOf node ≤ fuel →
      parseLiteralFuel fuel node = some (parseLiteral node) := by
  intro fuel
  induction fuel with
  | zero =>
      intro node h
      exfalso
      cases node <;> simp at h
  | succ fuel ih =>
      intro node h
      cases node with
      | stringValue s => rfl
      | intValue s => rfl
      | floatValue s => rfl
      | booleanValue b => rfl
      | nullValue => rfl
      | enumValue s => rfl
      | variableNode s => rfl
      | listValue vs =>
          have hsz : 1 + sizeOf vs ≤ fuel + 1 := by simp at h; omega
          have hvs : ∀ v ∈ vs, parseLiteralFuel fuel v = some (parseLiteral v) := by
            intro v hv
            have h1 := List.sizeOf_lt_of_mem hv
            exact ih v (by omega)
          simp only [parseLiteralFuel]
          rw [collectOptions_of_forall _ (fun v => parseLiteral v) vs hvs]
          simp only [Option.map]
          rw [collectResults_map_parseLiteral]
          cases hws : parseLiteralList vs <;>
            simp [parseLiteral, hws, bind, Except.bind, Functor.map, Except.map, pure, Except.pure]
      | objectValue flds =>
          have hsz : 1 + sizeOf flds ≤ fuel + 1 := by simp at h; omega
          have hflds : ∀ f ∈ flds,
              (parseLiteralFuel fuel f.2).map (fun r => (f.1, r)) =
                some (f.1, parseLiteral f.2) := by
            intro f hf
            have h1 := List.sizeOf_lt_of_mem hf
            obtain ⟨k0, vn0⟩ := f
            have h2 : sizeOf (k0, vn0) = 1 + sizeOf k0 + sizeOf vn0 := by simp
            rw [ih vn0 (by omega)]
            rfl
          simp only [parseLiteralFuel]
          rw [collectOptions_of_forall _ (fun f => (f.1, parseLiteral f.2)) flds hflds]
          simp only [Option.map]
          rw [assignResults_map_parseLiteral]
          cases hr : parseLiteralFields flds [] <;>
            simp [parseLiteral, hr, bind, Except.bind, Functor.map, Except.map, pure, Except.pure]


/-- On a non-date input, serialize is exactly the validate-or-throw step. -/
theorem serialize_of_not_date (v : JSValue) (h : isDateValue v = false) :
    serialize v = if isJSONValue v then .ok v else .error (cannotRepresent v) := by
  cases v <;> first | rfl | simp [isDateValue] at h


/-- pad2 always renders two characters. -/
theorem pad2_length (n : Nat) : (pad2 n).length = 2 := rfl


/-- pad3 always renders three characters. -/
theorem pad3_length (n : Nat) : (pad3 n).length = 3 := rfl


/-- pad4 always renders four characters. -/
theorem pad4_length (n : Nat) : (pad4 n).length = 4 := rfl


/-- For a year in 0-9999 the timestamp has exactly the canonical
four-digit-year shape. -/
theorem toISOString_shape (ms : Int) (h1 : 0 ≤ dateYear ms) (h2 : dateYear ms ≤ 9999) :
    toISOString ms =
      pad4 (dateYear ms).toNat ++ "-" ++ pad2 (civilFromDays (Int.ediv ms 86400000)).2.1 ++ "-" ++
      pad2 (civilFromDays (Int.ediv ms 86400000)).2.2 ++ "T" ++
      pad2 ((Int.emod ms 86400000).toNat / 3600000) ++ ":" ++
      pad2 ((Int.emod ms 86400000).toNat / 60000 % 60) ++ ":" ++
      pad2 ((Int.emod ms 86400000).toNat / 1000 % 60) ++ "." ++
      pad3 ((Int.emod ms 86400000).toNat % 1000) ++ "Z" := by
  unfold dateYear at h1 h2
  unfold toISOString yearString dateYear
  simp only [if_pos (And.intro h1 h2)]


/-- When every field value decodes, the decoder object loop returns the
fold of property assignments of the decoded pairs, in field order. -/
theorem parseLiteralFields_of_collect (flds : List (String × ValueNode)) :
    ∀ acc ds,
      collectResults (flds.map (fun f => Except.map (fun w => (f.1, w)) (parseLiteral f.2))) =
        .ok ds →
      parseLiteralFields flds acc = .ok (ds.foldl (fun a p => objAssign a p.1 p.2) acc) := by
  induction flds with
  | nil =>
      intro acc ds h
      simp only [List.map_nil, collectResults, Except.ok.injEq] at h
      subst h
      rfl
  | cons f flds ih =>
      intro acc ds h
      obtain ⟨name, vn⟩ := f
      simp only [List.map_cons, collectResults] at h
      cases hw : parseLiteral vn with
      | error e =>
          rw [hw] at h
          simp [Except.map, bind, Except.bind] at h
      | ok w =>
          rw [hw] at h
          cases hps : collectResults
              (flds.map (fun f => Except.map (fun w => (f.1, w)) (parseLiteral f.2))) with
          | error e =>
              rw [hps] at h
              simp [Except.map, bind, Except.bind] at h
          | ok ps =>
              rw [hps] at h
              simp only [Except.map, bind, Except.bind, pure, Except.pure,
                Except.ok.injEq] at h
              subst h
              simp only [parseLiteralFields, hw, bind, Except.bind, List.foldl_cons]
              exact ih (objAssign acc name w) ps hps


/-- When every element decodes, a list literal decodes to the array of the
decoded elements in order. -/
theorem parseLiteral_list_of_collect (vs : List ValueNode) (ws : List JSValue)
    (h : collectResults (vs.map (fun v => parseLiteral v)) = .ok ws) :
    parseLiteral (.listValue vs) = .ok (.arr .base ws) := by
  rw [collectResults_map_parseLiteral] at h
  simp [parseLiteral, h, bind, Except.bind, Functor.map, Except.map, pure, Except.pure]


/-- When every field decodes, an object literal decodes to the plain object
built by assigning each decoded field in order. -/
theorem parseLiteral_object_of_collect (flds : List (String × ValueNode))
    (ds : List (String × JSValue))
    (h : collectResults (flds.map (fun f => Except.map (fun w => (f.1, w)) (parseLiteral f.2))) =
      .ok ds) :
    parseLiteral (.objectValue flds) =
      .ok (.obj .base (ds.foldl (fun a p => objAssign a p.1 p.2) [])) := by
  have hp := parseLiteralFields_of_collect flds [] ds h
  simp [parseLiteral, hp, bind, Except.bind, Functor.map, Except.map, pure, Except.pure]


/-- The two converters are the same function on every input: same
results, same failures, same messages. -/
theorem converters_agree : ∀ v, serialize v = parseValue v := by
  intro v
  cases v <;> rfl

/-!
The claims.
-/

/-- C1: isJSONValue decides the JSON-Value domain by the ordered rules of
the spec: null and the string/number/boolean primitives are accepted;
undefined, functions and symbols are rejected; Date, RegExp and Error
objects are rejected; an array is accepted exactly when every element is,
regardless of its constructor; an object with the bare Object constructor
or none at all is accepted exactly when every property value is, and an
object with any other constructor is rejected; the empty array and empty
object are accepted; and a container holding one rejected member is
rejected. -/
theorem isJSONValue_ordered_rules :
    (isJSONValue .null = true) ∧
    (∀ s, isJSONValue (.str s) = true) ∧
    (∀ n, isJSONValue (.num n) = true) ∧
    (∀ b, isJSONValue (.boolean b) = true) ∧
    (isJSONValue .undefined = false) ∧
    (∀ src, isJSONValue (.func src) = false) ∧
    (∀ d, isJSONValue (.symbol d) = false) ∧
    (∀ ms, isJSONValue (.date ms) = false) ∧
    (∀ src, isJSONValue (.regexp src) = false) ∧
    (∀ m, isJSONValue (.errorObj m) = false) ∧
    (∀ c es, isJSONValue (.arr c es) = es.all (fun e => isJSONValue e)) ∧
    (∀ fs, isJSONValue (.obj .base fs) = (fs.map Prod.snd).all (fun w => isJSONValue w)) ∧
    (∀ fs, isJSONValue (.obj .noCtor fs) = (fs.map Prod.snd).all (fun w => isJSONValue w)) ∧
    (∀ nm fs, isJSONValue (.obj (.custom nm) fs) = false) ∧
    (∀ c, isJSONValue (.arr c []) = true) ∧
    (isJSONValue (.obj .base []) = true ∧ isJSONValue (.obj .noCtor []) = true) ∧
    (∀ c l v r, isJSONValue v = false → isJSONValue (.arr c (l ++ v :: r)) = false) ∧
    (∀ k l v r, isJSONValue v = false → isJSONValue (.obj .base (l ++ (k, v) :: r)) = false) := by
  refine ⟨rfl, fun s => rfl, fun n => rfl, fun b => rfl, rfl, fun s => rfl, fun d => rfl,
    fun ms => rfl, fun s => rfl, fun m => rfl, ?_, ?_, ?_, fun nm fs => rfl, fun c => rfl,
    ⟨rfl, rfl⟩, ?_, ?_⟩
  · intro c es
    rw [show isJSONValue (.arr c es) = isJSONValueList es from rfl, isJSONValueList_eq_all]
  · intro fs
    rw [show isJSONValue (.obj .base fs) = isJSONValueFields fs from rfl,
      isJSONValueFields_eq_all]
  · intro fs
    rw [show isJSONValue (.obj .noCtor fs) = isJSONValueFields fs from rfl,
      isJSONValueFields_eq_all]
  · intro c l v r hv
    rw [show isJSONValue (.arr c (l ++ v :: r)) = isJSONValueList (l ++ v :: r) from rfl,
      isJSONValueList_eq_all]
    simp [hv]
  · intro k l v r hv
    rw [show isJSONValue (.obj .base (l ++ (k, v) :: r)) = isJSONValueFields (l ++ (k, v) :: r)
      from rfl, isJSONValueFields_eq_all]
    simp [hv]

/-- C1 witness: a concrete array with one rejected element and a concrete
plain object with one rejected property value are both rejected. -/
theorem isJSONValue_ordered_rules_witness :
    isJSONValue (.arr .base [.null, .undefined, .boolean true]) = false ∧
    isJSONValue (.obj .base [("a", .num (.finite 1)), ("b", .func "fn")]) = false := by
  obtain ⟨-, -, -, -, -, -, -, -, -, -, -, -, -, -, -, -, h17, h18⟩ := isJSONValue_ordered_rules
  exact ⟨h17 .base [.null] .undefined [.boolean true] rfl,
    h18 "b" [("a", .num (.finite 1))] (.func "fn") [] rfl⟩

/-- C2: parseLiteral on each supported tag: a string literal passes its text
through unchanged; an int literal is the text parsed by the base-10 integer
parse; a float literal is the text parsed by the floating-point parse; a
boolean literal passes its boolean through; a null literal is null; a list
literal whose elements all decode is the array of the decoded elements in
the same order; an object literal whose field values all decode is the
mapping built by assigning each decoded value under its field name in field
order, so a duplicated field name resolves to the later field's value with
no duplicate-key error. -/
theorem parseLiteral_decoding_rules :
    (∀ s, parseLiteral (.stringValue s) = .ok (.str s)) ∧
    (∀ s, parseLiteral (.intValue s) = .ok (.num (jsParseInt s))) ∧
    (∀ s, parseLiteral (.floatValue s) = .ok (.num (jsParseFloat s))) ∧
    (∀ b, parseLiteral (.booleanValue b) = .ok (.boolean b)) ∧
    (parseLiteral .nullValue = .ok .null) ∧
    (∀ vs ws, collectResults (vs.map (fun v => parseLiteral v)) = .ok ws →
      parseLiteral (.listValue vs) = .ok (.arr .base ws)) ∧
    (∀ flds ds,
      collectResults (flds.map (fun f => Except.map (fun w => (f.1, w)) (parseLiteral f.2))) =
        .ok ds →
      parseLiteral (.objectValue flds) =
        .ok (.obj .base (ds.foldl (fun a p => objAssign a p.1 p.2) []))) ∧
    (∀ (ds : List (String × JSValue)) (k : String),
      objLookup (ds.foldl (fun a p => objAssign a p.1 p.2) []) k = lookupLastPair ds k) := by
  refine ⟨fun s => rfl, fun s => rfl, fun s => rfl, fun b => rfl, rfl,
    parseLiteral_list_of_collect, parseLiteral_object_of_collect, ?_⟩
  intro ds k
  rw [objLookup_foldl_assign]
  cases lookupLastPair ds k <;> simp [objLookup]

/-- C2 witness: an object literal with a duplicated field name decodes with
the later value winning, and a list literal decodes to its elements in
order. -/
theorem parseLiteral_decoding_rules_witness :
    parseLiteral (.objectValue [("a", .intValue "1"), ("a", .intValue "2")]) =
      .ok (.obj .base [("a", .num (.finite 2))]) ∧
    parseLiteral (.listValue [.stringValue "x", .nullValue]) =
      .ok (.arr .base [.str "x", .null]) := by
  obtain ⟨-, -, -, -, -, h6, h7, -⟩ := parseLiteral_decoding_rules
  constructor
  · have h := h7 [("a", .intValue "1"), ("a", .intValue "2")]
      [("a", .num (.finite 1)), ("a", .num (.finite 2))] (by rfl)
    exact h.trans (by rfl)
  · exact h6 [.stringValue "x", .nullValue] [.str "x", .null] (by rfl)

/-- C3: serializeValue and parseValue are the same function on every input
value whatsoever: same results and identical failures, error kind and
message included. -/
theorem serialize_parseValue_identical : ∀ v : JSValue, serialize v = parseValue v :=
  converters_agree

/-- C4: on every value of the JSON-Value domain, both converters return the
input itself (in this pure embedding, returning the argument unchanged is
the rendering of same-identity, no-copy, no-mutation behaviour). -/
theorem converters_identity_on_domain :
    ∀ v : JSValue, isJSONValue v = true → serialize v = .ok v ∧ parseValue v = .ok v := by
  intro v hv
  have hd : isDateValue v = false := by
    cases v <;> first | rfl | simp [isJSONValue] at hv
  have h1 : serialize v = .ok v := by
    rw [serialize_of_not_date v hd, hv]
    rfl
  exact ⟨h1, (converters_agree v) ▸ h1⟩

/-- C4 witness: a concrete nested plain object is returned unchanged by
both converters. -/
theorem converters_identity_on_domain_witness :
    serialize (.obj .base [("a", .num (.finite 1)), ("b", .str "test"),
        ("c", .arr .base [.null, .boolean true])]) =
      .ok (.obj .base [("a", .num (.finite 1)), ("b", .str "test"),
        ("c", .arr .base [.null, .boolean true])]) ∧
    parseValue (.obj .base [("a", .num (.finite 1)), ("b", .str "test"),
        ("c", .arr .base [.null, .boolean true])]) =
      .ok (.obj .base [("a", .num (.finite 1)), ("b", .str "test"),
        ("c", .arr .base [.null, .boolean true])]) :=
  converters_identity_on_domain _ (by rfl)

/-- C5: both converters throw a TypeError exactly when the input is not a
date and fails the validator; the thrown message embeds the String()
rendering of the rejected value and ends with the sentence that only plain
objects, arrays, and primitives are supported; in the error case no value
is produced (the Except error carries no partial result). -/
theorem converters_reject_iff :
    ∀ v : JSValue,
      ((∃ m, serialize v = .error (.typeError m)) ↔
        (isDateValue v = false ∧ isJSONValue v = false)) ∧
      ((∃ m, parseValue v = .error (.typeError m)) ↔
        (isDateValue v = false ∧ isJSONValue v = false)) ∧
      (∀ m, serialize v = .error (.typeError m) ∨ parseValue v = .error (.typeError m) →
        m = "JSON cannot represent value: " ++ jsToString v ++ "." ++
          "Only plain objects, arrays, and primitives are supported.") := by
  intro v
  have hser : (∃ m, serialize v = .error (.typeError m)) ↔
      (isDateValue v = false ∧ isJSONValue v = false) := by
    constructor
    · rintro ⟨m, hm⟩
      cases hd : isDateValue v with
      | true =>
          cases v <;> simp [isDateValue] at hd
          simp [serialize] at hm
      | false =>
          refine ⟨rfl, ?_⟩
          rw [serialize_of_not_date v hd] at hm
          cases hj : isJSONValue v with
          | true => rw [hj] at hm; simp at hm
          | false => rfl
    · rintro ⟨hd, hj⟩
      rw [serialize_of_not_date v hd, hj]
      exact ⟨_, rfl⟩
  have hmsg : ∀ m, serialize v = .error (.typeError m) →
      m = "JSON cannot represent value: " ++ jsToString v ++ "." ++
        "Only plain objects, arrays, and primitives are supported." := by
    intro m hm
    cases hd : isDateValue v with
    | true =>
        cases v <;> simp [isDateValue] at hd
        simp [serialize] at hm
    | false =>
        rw [serialize_of_not_date v hd] at hm
        cases hj : isJSONValue v with
        | true => rw [hj] at hm; simp at hm
        | false =>
            rw [hj] at hm
            simp only [Bool.false_eq_true, if_false, Except.error.injEq, cannotRepresent,
              JSError.typeError.injEq] at hm
            exact hm.symm
  refine ⟨hser, ?_, ?_⟩
  · rw [show parseValue v = serialize v from (converters_agree v).symm]
    exact hser
  · intro m hm
    cases hm with
    | inl h => exact hmsg m h
    | inr h => exact hmsg m ((converters_agree v).trans h)

/-- C5 witness: a function value makes serialize throw a TypeError. -/
theorem converters_reject_iff_witness :
    ∃ m, serialize (.func "fn") = .error (.typeError m) :=
  (converters_reject_iff (.func "fn")).1.mpr ⟨rfl, rfl⟩

/-- C6: on every date, both converters immediately return the ISO-8601
timestamp string of its time value; the validator plays no part (it would
in fact reject the date), and the result is a string, hence itself in the
JSON-Value domain; for years 0-9999 the string has the canonical 24
character YYYY-MM-DDTHH:mm:ss.sssZ shape. -/
theorem converters_date_iso :
    ∀ ms : Int,
      serialize (.date ms) = .ok (.str (toISOString ms)) ∧
      parseValue (.date ms) = .ok (.str (toISOString ms)) ∧
      isJSONValue (.date ms) = false ∧
      isJSONValue (.str (toISOString ms)) = true ∧
      (0 ≤ dateYear ms → dateYear ms ≤ 9999 →
        (toISOString ms).length = 24 ∧
        ∃ y mo d hh mi ss f, toISOString ms =
          pad4 y ++ "-" ++ pad2 mo ++ "-" ++ pad2 d ++ "T" ++ pad2 hh ++ ":" ++ pad2 mi ++
            ":" ++ pad2 ss ++ "." ++ pad3 f ++ "Z") := by
  intro ms
  refine ⟨rfl, rfl, rfl, rfl, ?_⟩
  intro h1 h2
  constructor
  · rw [toISOString_shape ms h1 h2]
    simp only [String.length_append, pad2_length, pad3_length, pad4_length]
    rfl
  · exact ⟨(dateYear ms).toNat, _, _, _, _, _, _, toISOString_shape ms h1 h2⟩

/-- C6 witness: the date at epoch milliseconds 1672531200000 serializes to
its ISO string, which is 24 characters long. -/
theorem converters_date_iso_witness :
    serialize (.date 1672531200000) = .ok (.str (toISOString 1672531200000)) ∧
    (toISOString 1672531200000).length = 24 :=
  ⟨(converters_date_iso 1672531200000).1,
    ((converters_date_iso 1672531200000).2.2.2.2 (by decide) (by decide)).1⟩

/-- C7: on every node whose tag is not one of the seven supported literal
kinds, parseLiteral throws a TypeError whose message names the offending
tag and lists the seven supported kinds. -/
theorem parseLiteral_unsupported_tag :
    ∀ node : ValueNode,
      node.kindName ∉ (["StringValue", "IntValue", "FloatValue", "BooleanValue", "NullValue",
        "ListValue", "ObjectValue"] : List String) →
      parseLiteral node = .error (.typeError ("JSON cannot represent value: " ++
        node.kindName ++ "." ++
        "Only StringValue, IntValue, FloatValue, BooleanValue, NullValue, ObjectValue, and ListValue are supported")) := by
  intro node h
  cases node <;> simp [ValueNode.kindName] at h <;> rfl

/-- C7 witness: an enum literal is rejected with the message naming its
tag. -/
theorem parseLiteral_unsupported_tag_witness :
    parseLiteral (.enumValue "TEST") = .error (.typeError ("JSON cannot represent value: " ++
      (ValueNode.enumValue "TEST").kindName ++ "." ++
      "Only StringValue, IntValue, FloatValue, BooleanValue, NullValue, ObjectValue, and ListValue are supported")) :=
  parseLiteral_unsupported_tag (.enumValue "TEST") (by decide)

/-- C8: whatever the decoder returns satisfies the validator, and on an AST
whose every node carries a supported tag the decoder does return a value,
which therefore lies in the JSON-Value domain, with no validator call
anywhere in the decoder. -/
theorem parseLiteral_output_in_domain :
    (∀ node v, parseLiteral node = .ok v → isJSONValue v = true) ∧
    (∀ node, allSupported node = true →
      ∃ v, parseLiteral node = .ok v ∧ isJSONValue v = true) := by
  refine ⟨parseLiteral_ok_isJSON, ?_⟩
  intro node h
  obtain ⟨v, hv⟩ := allSupported_parseLiteral_ok node h
  exact ⟨v, hv, parseLiteral_ok_isJSON node v hv⟩

/-- C8 witness: a decoded string literal is in the domain, and a fully
supported list literal decodes to a domain value. -/
theorem parseLiteral_output_in_domain_witness :
    isJSONValue (.str "x") = true ∧
    ∃ v, parseLiteral (.listValue [.nullValue]) = .ok v ∧ isJSONValue v = true :=
  ⟨parseLiteral_output_in_domain.1 (.stringValue "x") (.str "x") rfl,
    parseLiteral_output_in_domain.2 (.listValue [.nullValue]) rfl⟩

/-- C9: both recursions terminate on every finite input: run with any
call-stack bound at least the size of the input, the depth-bounded
executions of the validator and of the decoder complete, and they return
exactly the boolean, respectively the decode outcome, of the total
functions (the validator in particular always returns a boolean and never
throws, as its Bool-valued type shows). -/
theorem validator_decoder_terminate :
    (∀ (fuel : Nat) (v : JSValue), sizeOf v ≤ fuel →
      isJSONValueFuel fuel v = some (isJSONValue v)) ∧
    (∀ (fuel : Nat) (node : ValueNode), sizeOf node ≤ fuel →
      parseLiteralFuel fuel node = some (parseLiteral node)) :=
  ⟨isJSONValueFuel_converges, parseLiteralFuel_converges⟩

/-- C9 witness: concrete nested inputs evaluated with a concrete bound. -/
theorem validator_decoder_terminate_witness :
    isJSONValueFuel 8 (.arr .base [.null, .boolean true]) =
      some (isJSONValue (.arr .base [.null, .boolean true])) ∧
    parseLiteralFuel 8 (.listValue [.nullValue]) =
      some (parseLiteral (.listValue [.nullValue])) :=
  ⟨validator_decoder_terminate.1 8 _ (by decide),
    validator_decoder_terminate.2 8 _ (by decide)⟩

/-- C10: the constructor-identity restriction never applies to arrays: the
validator's answer on an array ignores the array's constructor entirely, so
an instance of a custom Array subclass whose elements all validate is
accepted, and both converters return it unchanged. -/
theorem array_subclass_accepted :
    ∀ (c c' : Ctor) (elems : List JSValue) (nm : String),
      isJSONValue (.arr c elems) = isJSONValue (.arr c' elems) ∧
      (isJSONValueList elems = true →
        isJSONValue (.arr (.custom nm) elems) = true ∧
        serialize (.arr (.custom nm) elems) = .ok (.arr (.custom nm) elems) ∧
        parseValue (.arr (.custom nm) elems) = .ok (.arr (.custom nm) elems)) := by
  intro c c' elems nm
  constructor
  · simp [isJSONValue]
  · intro h
    have hj : isJSONValue (.arr (.custom nm) elems) = true := by
      simp [isJSONValue, h]
    refine ⟨hj, ?_, ?_⟩
    · simp [serialize, hj]
    · simp [parseValue, hj]

/-- C10 witness: a concrete custom-subclass array of valid elements is
accepted and serialized unchanged. -/
theorem array_subclass_accepted_witness :
    isJSONValue (.arr (.custom "MyArray") [.null, .str "a"]) = true ∧
    serialize (.arr (.custom "MyArray") [.null, .str "a"]) =
      .ok (.arr (.custom "MyArray") [.null, .str "a"]) := by
  obtain ⟨-, h⟩ := array_subclass_accepted .base .base [.null, .str "a"] "MyArray"
  obtain ⟨ha, hb, -⟩ := h (by rfl)
  exact ⟨ha, hb⟩
